import Mathlib

/-!
# IMLADRIS core: a shallow embedding of `math.js` and `pattern.js`

This file embeds the point-in-time statistics cache builder
(`buildPointInTimeCache`), the divergence classifier (`getDivergence`) and
the profile similarity search (`zScoreDistance` / `findSimilarDays`) of the
IMLADRIS code base, and proves the spec's claims about them.

Embedding conventions:

* JS numbers are modelled as `ℚ`.  `Math.sqrt` is kept abstract as a
  parameter `sq : ℚ → ℚ`; claims that need facts about the real square
  root (nonnegativity on nonnegative inputs, `sqrt 0 = 0`) take those
  facts as hypotheses, so every theorem holds in particular for the real
  square root.
* Date strings `"YYYY-MM-DD"` are modelled as integer day numbers
  (`Int`); `new Date(d).getTime()` becomes `d * msPerDay` with
  `msPerDay = 24*60*60*1000`, which is exactly the millisecond timestamp
  of a UTC calendar day relative to the day numbered 0.
* A JS object used as a map (`State.cache`, the `zScores` and `ranks`
  objects) is modelled as an association list written in insertion
  order; object access is `List.lookup`.  Under the data-model invariant
  (no duplicate dates, distinct category names) this coincides with JS
  object semantics.
* A missing / `null` / `NaN` value is `none : Option ℚ`; `entry.overall`
  is `Option ℚ` (the `- oMean` arithmetic on a `null` overall coerces it
  to `0` in JS, modelled by `Option.getD 0`).
* `Array.prototype.sort` is stable (ES2019); it is modelled by the
  stable `List.insertionSort`.
-/

namespace Imladris

/-- A day record as produced by `data.js`: `{ date, overall, values, note }`. -/
structure DayRecord where
  date : Int
  overall : Option ℚ
  values : String → Option ℚ
  note : String

/-- One point-in-time cache entry:
`{ zScores, ranks, indexZ, overallZ, rawAvg }` (math.js, STORE step). -/
structure CacheEntry where
  zScores : List (String × ℚ)
  ranks : List (String × Nat)
  indexZ : Option ℚ
  overallZ : Option ℚ
  rawAvg : Option ℚ
deriving DecidableEq

/-- `State.settings` fields read by `getDivergence`. -/
structure Settings where
  cautionThreshold : ℚ
  alertThreshold : ℚ
deriving DecidableEq

/-- Population mean: `values.reduce((s,v) => s+v, 0) / values.length`. -/
def listMean (l : List ℚ) : ℚ := l.sum / (l.length : ℚ)

/-- Population variance:
`values.reduce((s,v) => s + Math.pow(v - mean, 2), 0) / values.length`. -/
def listVariance (l : List ℚ) : ℚ :=
  ((l.map fun v => (v - listMean l) ^ 2).sum) / (l.length : ℚ)

/-- `Math.sqrt(variance) || 1` — the zero-std guard of math.js.  (The
variance is nonnegative, so the computed square root is never `NaN` and
the only falsy value is `0`.) -/
def stdOrOne (sq : ℚ → ℚ) (variance : ℚ) : ℚ :=
  if sq variance = 0 then 1 else sq variance

/-- The non-missing values of one category over a history window:
`history.map(d => d.values[cat]).filter(v => v !== null && v !== undefined && !isNaN(v))`. -/
def catValues (history : List DayRecord) (cat : String) : List ℚ :=
  history.filterMap fun d => d.values cat

/-- STEP 1 stats object: `stats[cat] = { mean, std }`, absent when fewer
than 2 values exist. -/
def statsFor (sq : ℚ → ℚ) (history : List DayRecord) (cat : String) :
    Option (ℚ × ℚ) :=
  let values := catValues history cat
  if values.length < 2 then none
  else some (listMean values, stdOrOne sq (listVariance values))

/-- The z-score of one category on the current entry, `none` when the
day's own value is missing or the stats are absent:
`zScores[cat] = (val - stats[cat].mean) / stats[cat].std`. -/
def zScoreFn (sq : ℚ → ℚ) (history : List DayRecord) (entry : DayRecord)
    (cat : String) : Option ℚ :=
  match entry.values cat, statsFor sq history cat with
  | some val, some (m, s) => some ((val - m) / s)
  | _, _ => none

/-- Build an association list keyed by the elements of `keys` from a
partial value function (a JS object populated by a `for … of` loop that
skips absent values). -/
def assocOf (keys : List String) (f : String → Option ℚ) : List (String × ℚ) :=
  keys.filterMap fun k => (f k).map fun z => (k, z)

/-- The `zScores` object of one date. -/
def zScoresOf (sq : ℚ → ℚ) (cats : List String) (history : List DayRecord)
    (entry : DayRecord) : List (String × ℚ) :=
  assocOf cats (zScoreFn sq history entry)

/-- Comparator of the STEP 2 sort:
`Object.entries(zScores).sort(([, a], [, b]) => a - b)` — ascending by
z-score; the sort is stable. -/
def zLE (p q : String × ℚ) : Prop := p.2 ≤ q.2

instance : DecidableRel zLE := fun p q => inferInstanceAs (Decidable (p.2 ≤ q.2))

instance : IsTotal (String × ℚ) zLE := ⟨fun p q => le_total p.2 q.2⟩

instance : IsTrans (String × ℚ) zLE := ⟨fun _ _ _ h1 h2 => le_trans h1 h2⟩

/-- `ranked.forEach(([cat], idx) => { ranks[cat] = idx + 1 })`. -/
def ranksOf (ranked : List (String × ℚ)) : List (String × Nat) :=
  ranked.enum.map fun p => (p.2.1, p.1 + 1)

/-- STEP 3 helper: the raw cross-category average of present values only,
`null` when no value is present:
`v.length > 0 ? v.reduce((s,x) => s+x, 0) / v.length : null`. -/
def rawAvgOf (vals : List (Option ℚ)) : Option ℚ :=
  let v := vals.filterMap id
  if 0 < v.length then some (v.sum / (v.length : ℚ)) else none

/-- STEP 3: `indexZ` — the z-score of today's raw category average
against the history of daily raw averages, `null` when today has no
average or fewer than 2 historical averages exist. -/
def indexZOf (sq : ℚ → ℚ) (cats : List String) (history : List DayRecord)
    (entry : DayRecord) : Option ℚ :=
  match rawAvgOf (cats.map fun c => entry.values c) with
  | none => none
  | some todayAvg =>
    let historicalAvgs := history.filterMap fun d => rawAvgOf (cats.map fun c => d.values c)
    if 2 ≤ historicalAvgs.length then
      some ((todayAvg - listMean historicalAvgs) /
        stdOrOne sq (listVariance historicalAvgs))
    else none

/-- STEP 4: `overallZ` — the z-score of today's OVERALL rating against
the history of non-missing OVERALL values (`null` when fewer than 2
exist).  JS computes `entry.overall - oMean`, coercing a `null` overall
to `0`, hence `Option.getD 0`. -/
def overallZOf (sq : ℚ → ℚ) (history : List DayRecord) (entry : DayRecord) :
    Option ℚ :=
  let overallHistory := history.filterMap fun d => d.overall
  if 2 ≤ overallHistory.length then
    some ((entry.overall.getD 0 - listMean overallHistory) /
      stdOrOne sq (listVariance overallHistory))
  else none

/-- The cache entry stored for one date (math.js STEPs 1-4 and STORE). -/
def buildEntry (sq : ℚ → ℚ) (cats : List String) (history : List DayRecord)
    (entry : DayRecord) : CacheEntry :=
  let zScores := zScoresOf sq cats history entry
  { zScores := zScores
    ranks := ranksOf (zScores.insertionSort zLE)
    indexZ := indexZOf sq cats history entry
    overallZ := overallZOf sq history entry
    rawAvg := rawAvgOf (cats.map fun c => entry.values c) }

/-- The loop of `buildPointInTimeCache`: at step `i` the historical
window is `sorted.slice(0, i + 1)`, i.e. everything processed so far
plus the current entry. -/
def buildCacheFrom (sq : ℚ → ℚ) (cats : List String)
    (hist : List DayRecord) : List DayRecord → List (Int × CacheEntry)
  | [] => []
  | e :: rest =>
    (e.date, buildEntry sq cats (hist ++ [e]) e) ::
      buildCacheFrom sq cats (hist ++ [e]) rest

/-- `buildPointInTimeCache` — one cache entry per record, each computed
from records `[0..i]` only. -/
def buildPointInTimeCache (sq : ℚ → ℚ) (cats : List String)
    (records : List DayRecord) : List (Int × CacheEntry) :=
  buildCacheFrom sq cats [] records

/-! ## Divergence classifier (math.js, `getDivergence`) -/

/-- `{ gap, divergence, status, overallZ, indexZ }` as returned by
`getDivergence`; `status` is one of the strings
`"harmony"`, `"caution"`, `"alert"`. -/
structure DivergenceResult where
  gap : ℚ
  divergence : ℚ
  status : String
  overallZ : ℚ
  indexZ : ℚ
deriving DecidableEq

/-- `getDivergence(date)`: `null` when the date has no cache entry or
either `indexZ` or `overallZ` is `null`; otherwise the signed gap
`overallZ - indexZ`, its magnitude, and the three-band status. -/
def getDivergence (cache : List (Int × CacheEntry)) (settings : Settings)
    (date : Int) : Option DivergenceResult :=
  match cache.lookup date with
  | none => none
  | some cached =>
    match cached.indexZ, cached.overallZ with
    | some indexZ, some overallZ =>
      let gap := overallZ - indexZ
      let divergence := |gap|
      let status :=
        if settings.alertThreshold ≤ divergence then "alert"
        else if settings.cautionThreshold ≤ divergence then "caution"
        else "harmony"
      some ⟨gap, divergence, status, overallZ, indexZ⟩
    | _, _ => none

/-! ## Profile similarity search (pattern.js) -/

/-- Milliseconds per calendar day; `new Date(date).getTime()` for a
`"YYYY-MM-DD"` date string is the day number times this constant. -/
def msPerDay : Int := 24 * 60 * 60 * 1000

/-- The value returned by `zScoreDistance`:
`{ distance, similarity, categoriesCompared }`. -/
structure DistResult where
  distance : ℚ
  similarity : ℚ
  categoriesCompared : Nat
deriving DecidableEq

/-- The per-category z-score pairs of the `zScoreDistance` loop: the
categories of `cats` where both dates have a defined z-score, skipped
otherwise. -/
def sharedZPairs (c1 c2 : CacheEntry) (cats : List String) : List (ℚ × ℚ) :=
  cats.filterMap fun cat =>
    match c1.zScores.lookup cat, c2.zScores.lookup cat with
    | some z1, some z2 => some (z1, z2)
    | _, _ => none

/-- `zScoreDistance(date1, date2, cats)`: `null` when either date has no
cache entry or no category overlaps; otherwise the RMS distance over the
shared categories and the similarity percentage
`Math.max(0, 100 - (distance / 3) * 100)`. -/
def zScoreDistance (sq : ℚ → ℚ) (cache : List (Int × CacheEntry))
    (date1 date2 : Int) (cats : List String) : Option DistResult :=
  match cache.lookup date1, cache.lookup date2 with
  | some c1, some c2 =>
    let pairs := sharedZPairs c1 c2 cats
    if pairs.length = 0 then none
    else
      let sumSquared := ((pairs.map fun p => (p.1 - p.2) ^ 2).sum)
      let distance := sq (sumSquared / (pairs.length : ℚ))
      let similarity := max 0 (100 - (distance / 3) * 100)
      some ⟨distance, similarity, pairs.length⟩
  | _, _ => none

/-- One result row of `findSimilarDays`. -/
structure SimilarityMatch where
  date : Int
  similarity : ℚ
  distance : ℚ
  categoriesCompared : Nat
  overall : Option ℚ
  note : String
deriving DecidableEq

/-- The options object of `findSimilarDays` after destructuring
(`topN = 10`, `useAllCategories = State.pattern.useAllCategories`,
`excludeWindow = 7` are the defaults filled in at the call site). -/
structure SearchOptions where
  topN : Nat
  useAllCategories : Bool
  excludeWindow : Int
deriving DecidableEq

/-- The fields of the global `State` object read by `pattern.js`
(`State.view.hiddenCats` / `highlightedCats` are JS `Set`s, modelled as
lists queried by membership). -/
structure State where
  data : List DayRecord
  categories : List String
  cache : List (Int × CacheEntry)
  settings : Settings
  hiddenCats : List String
  highlightedCats : List String

/-- Descending-similarity comparator of the final sort:
`results.sort((a, b) => b.similarity - a.similarity)`; the sort is
stable. -/
def simGE (a b : SimilarityMatch) : Prop := b.similarity ≤ a.similarity

instance : DecidableRel simGE := fun a b =>
  inferInstanceAs (Decidable (b.similarity ≤ a.similarity))

instance : IsTotal SimilarityMatch simGE := ⟨fun a b => le_total b.similarity a.similarity⟩

instance : IsTrans SimilarityMatch simGE := ⟨fun _ _ _ h1 h2 => le_trans h2 h1⟩

/-- `findSimilarDays(refDate, options)`: compare the reference date
against every other date in `State.data`, skipping dates inside the
exclusion window, sort descending by similarity, and truncate to
`topN`. -/
def findSimilarDays (sq : ℚ → ℚ) (st : State) (refDate : Int)
    (opts : SearchOptions) : List SimilarityMatch :=
  match st.cache.lookup refDate with
  | none => []
  | some _ =>
    let cats :=
      if opts.useAllCategories then
        st.categories.filter fun c => !(st.hiddenCats.contains c)
      else
        st.categories.filter fun c =>
          !(st.hiddenCats.contains c) && st.highlightedCats.contains c
    if cats.length = 0 then []
    else
      let refTime := refDate * msPerDay
      let windowMs := opts.excludeWindow * msPerDay
      let results := st.data.filterMap fun entry =>
        if entry.date = refDate then none
        else if |entry.date * msPerDay - refTime| < windowMs then none
        else
          match zScoreDistance sq st.cache refDate entry.date cats with
          | none => none
          | some r =>
            some { date := entry.date
                   similarity := r.similarity
                   distance := r.distance
                   categoriesCompared := r.categoriesCompared
                   overall := entry.overall
                   note := entry.note }
      (results.insertionSort simGE).take opts.topN

/-- The search as a stateful computation on the global `State`: the only
interaction with the state is the initial read — `pattern.js` assigns no
`State` field inside `findSimilarDays`. -/
def findSimilarDaysM (sq : ℚ → ℚ) (refDate : Int) (opts : SearchOptions) :
    StateM State (List SimilarityMatch) := do
  let st ← get
  pure (findSimilarDays sq st refDate opts)

/-! ## Concrete witness data

A concrete stand-in for `Math.sqrt` and small concrete datasets, used
only to instantiate the claim theorems on computable inputs.  `sqFake`
satisfies the two facts about the real square root that the theorems
assume as hypotheses (nonnegativity on nonnegative inputs and
`sqrt 0 = 0`). -/

/-- Executable stand-in for `Math.sqrt` (the claims hold for every
function with the square root's sign behaviour). -/
def sqFake (x : ℚ) : ℚ := if x ≤ 0 then 0 else x

/-- A cache entry with both `indexZ` and `overallZ` present. -/
def exCE3 : CacheEntry := ⟨[], [], some 1, some 3, none⟩

/-- A two-day, one-category state for the similarity-search witnesses. -/
def exState : State :=
  { data := [⟨0, some 5, fun c => if c = "a" then some 1 else none, ""⟩,
             ⟨100, some 7, fun c => if c = "a" then some 9 else none, ""⟩]
    categories := ["a"]
    cache := [(0, ⟨[("a", 0)], [("a", 1)], none, none, none⟩),
              (100, ⟨[("a", 3)], [("a", 1)], none, none, none⟩)]
    settings := ⟨3/4, 3/2⟩
    hiddenCats := []
    highlightedCats := [] }

/-- A day whose two categories and OVERALL all read 5. -/
def exRec1 : DayRecord := ⟨0, some 5, fun _ => some 5, ""⟩

/-- A second constant day. -/
def exRec2 : DayRecord := ⟨1, some 5, fun _ => some 5, ""⟩

/-- A day with every category value missing. -/
def exRec3 : DayRecord := ⟨2, some 5, fun _ => none, ""⟩

/-- The second cache entry of a two-day, three-category constant
dataset (all three z-scores are 0, a three-way tie). -/
def exEntry2 : CacheEntry :=
  buildEntry sqFake ["a", "b", "c"] ([exRec1, exRec2].take 2)
    (([exRec1, exRec2])[1])

/-! ## Basic cache-shape lemmas -/

theorem buildCacheFrom_take (sq : ℚ → ℚ) (cats : List String) :
    ∀ (l : List DayRecord) (hist : List DayRecord) (k : Nat),
      buildCacheFrom sq cats hist (l.take k) =
        (buildCacheFrom sq cats hist l).take k := by
  intro l
  induction l with
  | nil => intro hist k; simp [buildCacheFrom]
  | cons e rest ih =>
    intro hist k
    cases k with
    | zero => simp [buildCacheFrom]
    | succ k' =>
      simp only [List.take_succ_cons, buildCacheFrom]
      rw [ih]

theorem length_buildCacheFrom (sq : ℚ → ℚ) (cats : List String) :
    ∀ (l : List DayRecord) (hist : List DayRecord),
      (buildCacheFrom sq cats hist l).length = l.length := by
  intro l
  induction l with
  | nil => intro hist; rfl
  | cons e rest ih => intro hist; simp [buildCacheFrom, ih]

/-- Claim C1 (causality of the cache build): building the cache from only
the first `k` records yields exactly the first `k` cache entries of the
full build — each date's `CacheEntry` is a function of records `[0..i]`
only, with no lookahead. -/
theorem cache_causality (sq : ℚ → ℚ) (cats : List String)
    (records : List DayRecord) (k : Nat) :
    buildPointInTimeCache sq cats (records.take k) =
      (buildPointInTimeCache sq cats records).take k :=
  buildCacheFrom_take sq cats records [] k

theorem sqFake_nonneg : ∀ x : ℚ, 0 ≤ x → 0 ≤ sqFake x := by
  intro x hx
  unfold sqFake
  split <;> simp [hx]

theorem sqFake_zero : sqFake 0 = 0 := by decide

/-- Claim C9 (search purity): running `findSimilarDays` as a stateful
computation returns the value of the pure function of
(state, reference date, options) and leaves the global state — cache,
record list, category list and settings — unchanged; hence two calls
with the same arguments return the same result list. -/
theorem findSimilarDays_pure (sq : ℚ → ℚ) (st : State) (refDate : Int)
    (opts : SearchOptions) :
    (findSimilarDaysM sq refDate opts).run st =
      (findSimilarDays sq st refDate opts, st) := rfl

/-- Claim C3 (divergence classifier): with consistent thresholds
`caution ≤ alert`, a date whose entry has both `indexZ` and `overallZ`
yields `gap = overallZ - indexZ`, `divergence = |gap|`, and exactly the
band `divergence < caution → harmony`,
`caution ≤ divergence < alert → caution`, `divergence ≥ alert → alert`;
a date with no cache entry, or a `null` `indexZ` or `overallZ`, yields
no result (`none`). -/
theorem divergence_classifier (cache : List (Int × CacheEntry))
    (s : Settings) (date : Int) (c : CacheEntry) (iz oz : ℚ)
    (hth : s.cautionThreshold ≤ s.alertThreshold) :
    (cache.lookup date = some c → c.indexZ = some iz → c.overallZ = some oz →
      getDivergence cache s date = some ⟨oz - iz, |oz - iz|,
        (if |oz - iz| < s.cautionThreshold then "harmony"
         else if |oz - iz| < s.alertThreshold then "caution" else "alert"),
        oz, iz⟩)
    ∧ (cache.lookup date = none → getDivergence cache s date = none)
    ∧ (cache.lookup date = some c → c.indexZ = none →
        getDivergence cache s date = none)
    ∧ (cache.lookup date = some c → c.overallZ = none →
        getDivergence cache s date = none) := by
  refine ⟨?_, ?_, ?_, ?_⟩
  · intro hl hiz hoz
    have hst :
        (if s.alertThreshold ≤ |oz - iz| then "alert"
         else if s.cautionThreshold ≤ |oz - iz| then "caution" else "harmony")
        = (if |oz - iz| < s.cautionThreshold then "harmony"
           else if |oz - iz| < s.alertThreshold then "caution" else "alert") := by
      split_ifs <;> first | rfl | linarith
    simp only [getDivergence, hl, hiz, hoz, hst]
  · intro hl
    simp only [getDivergence, hl]
  · intro hl hiz
    simp only [getDivergence, hl, hiz]
  · intro hl hoz
    cases hiz : c.indexZ <;> simp only [getDivergence, hl, hiz, hoz]

theorem divergence_classifier_spec :
    ([((0:Int), exCE3)].lookup (0:Int) = some exCE3 →
      exCE3.indexZ = some 1 → exCE3.overallZ = some 3 →
      getDivergence [((0:Int), exCE3)] ⟨3/4, 3/2⟩ 0 = some ⟨3 - 1, |(3:ℚ) - 1|,
        (if |(3:ℚ) - 1| < 3/4 then "harmony"
         else if |(3:ℚ) - 1| < 3/2 then "caution" else "alert"), 3, 1⟩)
    ∧ ([((0:Int), exCE3)].lookup (0:Int) = none →
        getDivergence [((0:Int), exCE3)] ⟨3/4, 3/2⟩ 0 = none)
    ∧ ([((0:Int), exCE3)].lookup (0:Int) = some exCE3 → exCE3.indexZ = none →
        getDivergence [((0:Int), exCE3)] ⟨3/4, 3/2⟩ 0 = none)
    ∧ ([((0:Int), exCE3)].lookup (0:Int) = some exCE3 → exCE3.overallZ = none →
        getDivergence [((0:Int), exCE3)] ⟨3/4, 3/2⟩ 0 = none) :=
  divergence_classifier [((0:Int), exCE3)] ⟨3/4, 3/2⟩ 0 exCE3 1 3 (by norm_num)

/-- Claim C4 (similarity mapping and bounds): whenever `zScoreDistance`
returns a result, its distance is the square root of the mean squared
z-score difference over exactly the categories both dates define, its
similarity is `clamp(100 - (distance / 3) * 100, 0, 100)`, the
similarity lies in `[0, 100]`, and it equals `100` iff the distance is
`0`. -/
theorem similarity_bounds (sq : ℚ → ℚ) (cache : List (Int × CacheEntry))
    (d1 d2 : Int) (cats : List String) (c1 c2 : CacheEntry) (r : DistResult)
    (hnn : ∀ x : ℚ, 0 ≤ x → 0 ≤ sq x)
    (h1 : cache.lookup d1 = some c1) (h2 : cache.lookup d2 = some c2)
    (hr : zScoreDistance sq cache d1 d2 cats = some r) :
    r.distance = sq ((((sharedZPairs c1 c2 cats).map fun p => (p.1 - p.2) ^ 2).sum) /
        ((sharedZPairs c1 c2 cats).length : ℚ))
    ∧ r.categoriesCompared = (sharedZPairs c1 c2 cats).length
    ∧ r.similarity = min 100 (max 0 (100 - (r.distance / 3) * 100))
    ∧ 0 ≤ r.similarity ∧ r.similarity ≤ 100
    ∧ (r.similarity = 100 ↔ r.distance = 0) := by
  simp only [zScoreDistance, h1, h2] at hr
  by_cases hlen : (sharedZPairs c1 c2 cats).length = 0
  · rw [if_pos hlen] at hr
    exact absurd hr (by simp)
  · rw [if_neg hlen] at hr
    rw [Option.some.injEq] at hr
    subst hr
    have hS : 0 ≤ (((sharedZPairs c1 c2 cats).map fun p => (p.1 - p.2) ^ 2).sum) := by
      apply List.sum_nonneg
      intro x hx
      obtain ⟨p, _, rfl⟩ := List.mem_map.mp hx
      positivity
    have hn : 0 < ((sharedZPairs c1 c2 cats).length : ℚ) := by
      exact_mod_cast Nat.pos_of_ne_zero hlen
    have hd : 0 ≤ sq ((((sharedZPairs c1 c2 cats).map fun p => (p.1 - p.2) ^ 2).sum) /
        ((sharedZPairs c1 c2 cats).length : ℚ)) :=
      hnn _ (div_nonneg hS hn.le)
    set d := sq ((((sharedZPairs c1 c2 cats).map fun p => (p.1 - p.2) ^ 2).sum) /
        ((sharedZPairs c1 c2 cats).length : ℚ)) with hdef
    have hle : max 0 (100 - (d / 3) * 100) ≤ 100 := by
      apply max_le (by norm_num)
      nlinarith
    refine ⟨rfl, rfl, (min_eq_right hle).symm, le_max_left _ _, hle, ?_⟩
    constructor
    · intro h
      have hsim : max 0 (100 - (d / 3) * 100) = 100 := h
      show d = 0
      rcases le_or_lt (100 - (d / 3) * 100) 0 with hc | hc
      · rw [max_eq_left hc] at hsim
        norm_num at hsim
      · rw [max_eq_right hc.le] at hsim
        nlinarith
    · intro h
      have h0 : d = 0 := h
      show max 0 (100 - (d / 3) * 100) = 100
      rw [h0]
      norm_num

theorem zsd_eval : zScoreDistance sqFake exState.cache 0 100 ["a"] =
    some ⟨9, 0, 1⟩ := by
  have l1 : exState.cache.lookup (0:Int) =
      some ⟨[("a", 0)], [("a", 1)], none, none, none⟩ := rfl
  have l2 : exState.cache.lookup (100:Int) =
      some ⟨[("a", 3)], [("a", 1)], none, none, none⟩ := rfl
  have hp : sharedZPairs ⟨[("a", 0)], [("a", 1)], none, none, none⟩
      ⟨[("a", 3)], [("a", 1)], none, none, none⟩ ["a"] = [((0:ℚ), (3:ℚ))] := rfl
  simp only [zScoreDistance, l1, l2, hp]
  norm_num [sqFake]

theorem fsd_eval : findSimilarDays sqFake exState 0 ⟨10, true, 7⟩ =
    [⟨100, 0, 9, 1, some 7, ""⟩] := by
  have hp : sharedZPairs ⟨[("a", 0)], [("a", 1)], none, none, none⟩
      ⟨[("a", 3)], [("a", 1)], none, none, none⟩ ["a"] = [((0:ℚ), (3:ℚ))] := rfl
  simp only [findSimilarDays, exState, List.lookup]
  norm_num [msPerDay, List.insertionSort, List.orderedInsert, List.filterMap, hp,
    sqFake]

theorem similarity_bounds_spec :
    (⟨9, 0, 1⟩ : DistResult).distance =
      sqFake ((((sharedZPairs ⟨[("a", 0)], [("a", 1)], none, none, none⟩
          ⟨[("a", 3)], [("a", 1)], none, none, none⟩ ["a"]).map
            fun p => (p.1 - p.2) ^ 2).sum) /
        ((sharedZPairs ⟨[("a", 0)], [("a", 1)], none, none, none⟩
          ⟨[("a", 3)], [("a", 1)], none, none, none⟩ ["a"]).length : ℚ))
    ∧ (⟨9, 0, 1⟩ : DistResult).categoriesCompared =
        (sharedZPairs ⟨[("a", 0)], [("a", 1)], none, none, none⟩
          ⟨[("a", 3)], [("a", 1)], none, none, none⟩ ["a"]).length
    ∧ (⟨9, 0, 1⟩ : DistResult).similarity =
        min 100 (max 0 (100 - ((⟨9, 0, 1⟩ : DistResult).distance / 3) * 100))
    ∧ 0 ≤ (⟨9, 0, 1⟩ : DistResult).similarity
    ∧ (⟨9, 0, 1⟩ : DistResult).similarity ≤ 100
    ∧ ((⟨9, 0, 1⟩ : DistResult).similarity = 100 ↔
        (⟨9, 0, 1⟩ : DistResult).distance = 0) :=
  similarity_bounds sqFake exState.cache 0 100 ["a"]
    ⟨[("a", 0)], [("a", 1)], none, none, none⟩
    ⟨[("a", 3)], [("a", 1)], none, none, none⟩ ⟨9, 0, 1⟩
    sqFake_nonneg (by rfl) (by rfl) zsd_eval

/-- Claim C5 (exclusion window): every match returned by
`findSimilarDays` lies outside the exclusion window — its date differs
from the reference date and is at least `excludeWindowDays` calendar
days away (in particular, with `excludeWindowDays = 7`, no returned
match is strictly within 7 calendar days of the reference). -/
theorem exclusion_window (sq : ℚ → ℚ) (st : State) (refDate : Int)
    (opts : SearchOptions) (m : SimilarityMatch)
    (hm : m ∈ findSimilarDays sq st refDate opts) :
    m.date ≠ refDate ∧ opts.excludeWindow ≤ |m.date - refDate| := by
  simp only [findSimilarDays] at hm
  split at hm
  · simp at hm
  · by_cases hlen :
        (if opts.useAllCategories then
          st.categories.filter fun c => !(st.hiddenCats.contains c)
        else
          st.categories.filter fun c =>
            !(st.hiddenCats.contains c) && st.highlightedCats.contains c).length = 0
    · rw [if_pos hlen] at hm
      simp at hm
    · rw [if_neg hlen] at hm
      replace hm := List.mem_of_mem_take hm
      rw [List.mem_insertionSort] at hm
      obtain ⟨entry, hentry, hfe⟩ := List.mem_filterMap.mp hm
      by_cases hd1 : entry.date = refDate
      · rw [if_pos hd1] at hfe
        exact absurd hfe (by simp)
      · rw [if_neg hd1] at hfe
        by_cases hd2 : |entry.date * msPerDay - refDate * msPerDay| <
            opts.excludeWindow * msPerDay
        · rw [if_pos hd2] at hfe
          exact absurd hfe (by simp)
        · rw [if_neg hd2] at hfe
          split at hfe
          · exact absurd hfe (by simp)
          · rw [Option.some.injEq] at hfe
            subst hfe
            push_neg at hd2
            refine ⟨hd1, ?_⟩
            show opts.excludeWindow ≤ |entry.date - refDate|
            have hms : entry.date * msPerDay - refDate * msPerDay =
                (entry.date - refDate) * msPerDay := by ring
            rw [hms, abs_mul] at hd2
            have habs : |msPerDay| = msPerDay := by decide
            rw [habs] at hd2
            have hpos : (0:Int) < msPerDay := by decide
            exact le_of_mul_le_mul_right hd2 hpos

theorem exclusion_window_spec :
    ((⟨100, 0, 9, 1, some 7, ""⟩ : SimilarityMatch).date ≠ (0:Int))
    ∧ ((⟨10, true, 7⟩ : SearchOptions).excludeWindow ≤
        |(⟨100, 0, 9, 1, some 7, ""⟩ : SimilarityMatch).date - (0:Int)|) :=
  exclusion_window sqFake exState 0 ⟨10, true, 7⟩ ⟨100, 0, 9, 1, some 7, ""⟩
    (by rw [fsd_eval]; simp)

theorem getElem?_buildCacheFrom (sq : ℚ → ℚ) (cats : List String) :
    ∀ (l : List DayRecord) (hist : List DayRecord) (i : Nat)
      (h : i < l.length),
      (buildCacheFrom sq cats hist l)[i]? =
        some ((l.get ⟨i, h⟩).date,
          buildEntry sq cats (hist ++ l.take (i + 1)) (l.get ⟨i, h⟩)) := by
  intro l
  induction l with
  | nil => intro hist i h; simp at h
  | cons e rest ih =>
    intro hist i h
    cases i with
    | zero => simp [buildCacheFrom]
    | succ j =>
      have hj : j < rest.length := by simpa using h
      simp only [buildCacheFrom, List.getElem?_cons_succ]
      rw [ih (hist ++ [e]) j hj]
      simp [List.take_succ_cons, List.append_assoc]

theorem getElem?_buildPointInTimeCache (sq : ℚ → ℚ) (cats : List String)
    (records : List DayRecord) (i : Nat) (hi : i < records.length) :
    (buildPointInTimeCache sq cats records)[i]? =
      some (records[i].date,
        buildEntry sq cats (records.take (i + 1)) records[i]) := by
  have h := getElem?_buildCacheFrom sq cats records [] i hi
  simpa [buildPointInTimeCache] using h

theorem mem_buildPointInTimeCache {sq : ℚ → ℚ} {cats : List String}
    {records : List DayRecord} {d : Int} {ce : CacheEntry} :
    (d, ce) ∈ buildPointInTimeCache sq cats records ↔
      ∃ (i : Nat) (h : i < records.length), d = records[i].date ∧
        ce = buildEntry sq cats (records.take (i + 1)) records[i] := by
  constructor
  · intro hmem
    obtain ⟨i, hq⟩ := List.mem_iff_getElem?.mp hmem
    have hi : i < records.length := by
      have hl : i < (buildPointInTimeCache sq cats records).length := by
        by_contra hcon
        rw [List.getElem?_eq_none (by omega)] at hq
        exact absurd hq (by simp)
      simpa [buildPointInTimeCache, length_buildCacheFrom] using hl
    rw [getElem?_buildPointInTimeCache sq cats records i hi] at hq
    rw [Option.some.injEq, Prod.mk.injEq] at hq
    exact ⟨i, hi, hq.1.symm, hq.2.symm⟩
  · rintro ⟨i, hi, rfl, rfl⟩
    exact List.getElem?_mem (getElem?_buildPointInTimeCache sq cats records i hi)

/-! ## Association-list lemmas for the `zScores` object -/

theorem lookup_assocOf_eq_none (f : String → Option ℚ) (keys : List String)
    (c : String) (hc : c ∉ keys) : (assocOf keys f).lookup c = none := by
  rw [List.lookup_eq_none_iff]
  intro p hp
  obtain ⟨k, hk, hpk⟩ := List.mem_filterMap.mp hp
  cases hfk : f k with
  | none => rw [hfk] at hpk; exact absurd hpk (by simp)
  | some z =>
    rw [hfk] at hpk
    simp only [Option.map_some', Option.some.injEq] at hpk
    subst hpk
    simp only [bne_iff_ne, ne_eq]
    intro hck
    exact hc (hck ▸ hk)

theorem lookup_assocOf (f : String → Option ℚ) :
    ∀ (keys : List String) (c : String), c ∈ keys →
      (assocOf keys f).lookup c = f c := by
  intro keys
  induction keys with
  | nil => intro c hc; simp at hc
  | cons k rest ih =>
    intro c hc
    cases hfk : f k with
    | none =>
      have he : assocOf (k :: rest) f = assocOf rest f := by
        simp [assocOf, List.filterMap_cons, hfk]
      rw [he]
      rcases List.mem_cons.mp hc with rfl | hmem
      · by_cases hr : c ∈ rest
        · exact ih c hr
        · rw [hfk]
          exact lookup_assocOf_eq_none f rest c hr
      · exact ih c hmem
    | some z =>
      have he : assocOf (k :: rest) f = (k, z) :: assocOf rest f := by
        simp [assocOf, List.filterMap_cons, hfk]
      rw [he, List.lookup_cons]
      by_cases hck : c = k
      · subst hck
        simp [hfk]
      · have hb : (c == k) = false := by simpa using hck
        rw [hb]
        rcases List.mem_cons.mp hc with rfl | hmem
        · exact absurd rfl hck
        · exact ih c hmem

theorem mem_assocOf {f : String → Option ℚ} {keys : List String} {c : String}
    {z : ℚ} : (c, z) ∈ assocOf keys f ↔ c ∈ keys ∧ f c = some z := by
  constructor
  · intro h
    obtain ⟨k, hk, hpk⟩ := List.mem_filterMap.mp h
    cases hfk : f k with
    | none => rw [hfk] at hpk; exact absurd hpk (by simp)
    | some w =>
      rw [hfk] at hpk
      simp only [Option.map_some', Option.some.injEq, Prod.mk.injEq] at hpk
      obtain ⟨rfl, rfl⟩ := hpk
      exact ⟨hk, hfk⟩
  · rintro ⟨hmem, hfz⟩
    exact List.mem_filterMap.mpr ⟨c, hmem, by rw [hfz]; rfl⟩

theorem map_fst_assocOf_sublist (f : String → Option ℚ) :
    ∀ keys : List String, ((assocOf keys f).map Prod.fst).Sublist keys := by
  intro keys
  induction keys with
  | nil => simp [assocOf]
  | cons k rest ih =>
    cases hfk : f k with
    | none =>
      have he : assocOf (k :: rest) f = assocOf rest f := by
        simp [assocOf, List.filterMap_cons, hfk]
      rw [he]
      exact ih.trans (List.sublist_cons_self k rest)
    | some z =>
      have he : assocOf (k :: rest) f = (k, z) :: assocOf rest f := by
        simp [assocOf, List.filterMap_cons, hfk]
      rw [he]
      simpa using ih.cons₂ k

/-! ## Unfolding lemmas for the three standardizations -/

theorem statsFor_eq_none (sq : ℚ → ℚ) (history : List DayRecord) (cat : String)
    (h : (catValues history cat).length < 2) :
    statsFor sq history cat = none := by
  unfold statsFor
  exact if_pos h

theorem statsFor_eq_stats (sq : ℚ → ℚ) (history : List DayRecord) (cat : String)
    (h : ¬(catValues history cat).length < 2) :
    statsFor sq history cat =
      some (listMean (catValues history cat),
        stdOrOne sq (listVariance (catValues history cat))) := by
  unfold statsFor
  exact if_neg h

theorem indexZOf_eq_none_of_short (sq : ℚ → ℚ) (cats : List String)
    (history : List DayRecord) (entry : DayRecord)
    (h : (history.filterMap fun d =>
      rawAvgOf (cats.map fun c => d.values c)).length < 2) :
    indexZOf sq cats history entry = none := by
  unfold indexZOf
  cases hta : rawAvgOf (cats.map fun c => entry.values c) with
  | none => rfl
  | some t => exact if_neg (by omega)

theorem indexZOf_eq_of_avg (sq : ℚ → ℚ) (cats : List String)
    (history : List DayRecord) (entry : DayRecord) (t : ℚ)
    (ht : rawAvgOf (cats.map fun c => entry.values c) = some t)
    (h2 : 2 ≤ (history.filterMap fun d =>
      rawAvgOf (cats.map fun c => d.values c)).length) :
    indexZOf sq cats history entry =
      some ((t - listMean (history.filterMap fun d =>
          rawAvgOf (cats.map fun c => d.values c))) /
        stdOrOne sq (listVariance (history.filterMap fun d =>
          rawAvgOf (cats.map fun c => d.values c)))) := by
  unfold indexZOf
  rw [ht]
  exact if_pos h2

theorem overallZOf_eq_none_of_short (sq : ℚ → ℚ) (history : List DayRecord)
    (entry : DayRecord)
    (h : (history.filterMap fun d => d.overall).length < 2) :
    overallZOf sq history entry = none := by
  unfold overallZOf
  exact if_neg (by omega)

theorem overallZOf_eq_of_long (sq : ℚ → ℚ) (history : List DayRecord)
    (entry : DayRecord)
    (h2 : 2 ≤ (history.filterMap fun d => d.overall).length) :
    overallZOf sq history entry =
      some ((entry.overall.getD 0 -
          listMean (history.filterMap fun d => d.overall)) /
        stdOrOne sq (listVariance (history.filterMap fun d => d.overall))) := by
  unfold overallZOf
  exact if_pos h2

/-- Claim C6 (insufficient-history handling): in every built cache entry,
a category is absent from `zScores` exactly when the day's own value is
missing or fewer than 2 non-missing observations exist in records
`[0..i]`; `indexZ` is `null` when fewer than 2 historical daily raw
averages exist; `overallZ` is `null` when fewer than 2 historical
overall values exist — the value is omitted, never defaulted to zero,
and (all functions being total) no error is raised. -/
theorem insufficient_history (sq : ℚ → ℚ) (cats : List String)
    (records : List DayRecord) (i : Nat) (c : String)
    (hi : i < records.length) (hc : c ∈ cats) :
    ((buildPointInTimeCache sq cats records)[i]? =
      some (records[i].date,
        buildEntry sq cats (records.take (i + 1)) records[i]))
    ∧ ((buildEntry sq cats (records.take (i + 1)) records[i]).zScores.lookup c
        = none ↔
        (records[i].values c = none ∨
          (catValues (records.take (i + 1)) c).length < 2))
    ∧ (((records.take (i + 1)).filterMap fun d =>
          rawAvgOf (cats.map fun ct => d.values ct)).length < 2 →
        (buildEntry sq cats (records.take (i + 1)) records[i]).indexZ = none)
    ∧ (((records.take (i + 1)).filterMap fun d => d.overall).length < 2 →
        (buildEntry sq cats (records.take (i + 1)) records[i]).overallZ = none) := by
  refine ⟨getElem?_buildPointInTimeCache sq cats records i hi, ?_, ?_, ?_⟩
  · show (zScoresOf sq cats (records.take (i + 1)) records[i]).lookup c = none ↔ _
    rw [zScoresOf, lookup_assocOf _ _ _ hc]
    unfold zScoreFn
    cases hv : records[i].values c with
    | none => simp
    | some v =>
      by_cases hlen : (catValues (records.take (i + 1)) c).length < 2
      · rw [statsFor_eq_none sq _ c hlen]
        simp [hlen]
      · rw [statsFor_eq_stats sq _ c hlen]
        simp [hlen]
  · intro h2
    show indexZOf sq cats (records.take (i + 1)) records[i] = none
    exact indexZOf_eq_none_of_short sq cats _ _ (by simpa using h2)
  · intro h3
    show overallZOf sq (records.take (i + 1)) records[i] = none
    exact overallZOf_eq_none_of_short sq _ _ h3

theorem insufficient_history_spec :
    ((buildPointInTimeCache sqFake ["a", "b"] [exRec1])[0]? =
      some (([exRec1])[0].date,
        buildEntry sqFake ["a", "b"] ([exRec1].take 1) ([exRec1])[0]))
    ∧ ((buildEntry sqFake ["a", "b"] ([exRec1].take 1) ([exRec1])[0]).zScores.lookup "a"
        = none ↔
        (([exRec1])[0].values "a" = none ∨
          (catValues ([exRec1].take 1) "a").length < 2))
    ∧ ((([exRec1].take 1).filterMap fun d =>
          rawAvgOf (["a", "b"].map fun ct => d.values ct)).length < 2 →
        (buildEntry sqFake ["a", "b"] ([exRec1].take 1) ([exRec1])[0]).indexZ = none)
    ∧ ((([exRec1].take 1).filterMap fun d => d.overall).length < 2 →
        (buildEntry sqFake ["a", "b"] ([exRec1].take 1) ([exRec1])[0]).overallZ = none) :=
  insufficient_history sqFake ["a", "b"] [exRec1] 0 "a" (by decide) (by decide)

/-- Claim C7 (degenerate-variance policy): in each of the three
standardizations of the cache builder (per-category z-score, `indexZ`,
`overallZ`), when the historical window's population variance is exactly
zero (equivalently, the computed standard deviation `sq variance` is
zero, since `sq 0 = 0`), the divisor 1 is substituted and the result is
the raw difference `value - historical mean`; division is total, so no
undefined value is produced. -/
theorem degenerate_variance (sq : ℚ → ℚ) (cats : List String)
    (records : List DayRecord) (i : Nat) (c : String) (v t : ℚ)
    (hsq0 : sq 0 = 0) (hi : i < records.length) (hc : c ∈ cats) :
    ((buildPointInTimeCache sq cats records)[i]? =
      some (records[i].date,
        buildEntry sq cats (records.take (i + 1)) records[i]))
    ∧ (records[i].values c = some v →
      2 ≤ (catValues (records.take (i + 1)) c).length →
      listVariance (catValues (records.take (i + 1)) c) = 0 →
      (buildEntry sq cats (records.take (i + 1)) records[i]).zScores.lookup c =
        some (v - listMean (catValues (records.take (i + 1)) c)))
    ∧ (rawAvgOf (cats.map fun ct => records[i].values ct) = some t →
      2 ≤ ((records.take (i + 1)).filterMap fun d =>
          rawAvgOf (cats.map fun ct => d.values ct)).length →
      listVariance ((records.take (i + 1)).filterMap fun d =>
          rawAvgOf (cats.map fun ct => d.values ct)) = 0 →
      (buildEntry sq cats (records.take (i + 1)) records[i]).indexZ =
        some (t - listMean ((records.take (i + 1)).filterMap fun d =>
          rawAvgOf (cats.map fun ct => d.values ct))))
    ∧ (2 ≤ ((records.take (i + 1)).filterMap fun d => d.overall).length →
      listVariance ((records.take (i + 1)).filterMap fun d => d.overall) = 0 →
      (buildEntry sq cats (records.take (i + 1)) records[i]).overallZ =
        some (records[i].overall.getD 0 -
          listMean ((records.take (i + 1)).filterMap fun d => d.overall))) := by
  have hstd : ∀ x : ℚ, x = 0 → stdOrOne sq x = 1 := by
    intro x hx
    rw [hx, stdOrOne, if_pos hsq0]
  refine ⟨getElem?_buildPointInTimeCache sq cats records i hi, ?_, ?_, ?_⟩
  · intro hv hlen hvar
    show (zScoresOf sq cats (records.take (i + 1)) records[i]).lookup c = _
    rw [zScoresOf, lookup_assocOf _ _ _ hc]
    unfold zScoreFn
    rw [hv, statsFor_eq_stats sq _ c (by omega), hstd _ hvar]
    exact congrArg some (div_one _)
  · intro ht hlen hvar
    show indexZOf sq cats (records.take (i + 1)) records[i] = _
    rw [indexZOf_eq_of_avg sq cats _ _ t ht hlen, hstd _ hvar]
    exact congrArg some (div_one _)
  · intro hlen hvar
    show overallZOf sq (records.take (i + 1)) records[i] = _
    rw [overallZOf_eq_of_long sq _ _ hlen, hstd _ hvar]
    exact congrArg some (div_one _)

theorem degenerate_variance_spec :
    ((buildPointInTimeCache sqFake ["a", "b"] [exRec1, exRec2])[1]? =
      some (([exRec1, exRec2])[1].date,
        buildEntry sqFake ["a", "b"] ([exRec1, exRec2].take 2)
          ([exRec1, exRec2])[1]))
    ∧ (([exRec1, exRec2])[1].values "a" = some 5 →
      2 ≤ (catValues ([exRec1, exRec2].take 2) "a").length →
      listVariance (catValues ([exRec1, exRec2].take 2) "a") = 0 →
      (buildEntry sqFake ["a", "b"] ([exRec1, exRec2].take 2)
          ([exRec1, exRec2])[1]).zScores.lookup "a" =
        some (5 - listMean (catValues ([exRec1, exRec2].take 2) "a")))
    ∧ (rawAvgOf (["a", "b"].map fun ct => ([exRec1, exRec2])[1].values ct) =
        some 5 →
      2 ≤ (([exRec1, exRec2].take 2).filterMap fun d =>
          rawAvgOf (["a", "b"].map fun ct => d.values ct)).length →
      listVariance (([exRec1, exRec2].take 2).filterMap fun d =>
          rawAvgOf (["a", "b"].map fun ct => d.values ct)) = 0 →
      (buildEntry sqFake ["a", "b"] ([exRec1, exRec2].take 2)
          ([exRec1, exRec2])[1]).indexZ =
        some (5 - listMean (([exRec1, exRec2].take 2).filterMap fun d =>
          rawAvgOf (["a", "b"].map fun ct => d.values ct))))
    ∧ (2 ≤ (([exRec1, exRec2].take 2).filterMap fun d => d.overall).length →
      listVariance (([exRec1, exRec2].take 2).filterMap fun d => d.overall) = 0 →
      (buildEntry sqFake ["a", "b"] ([exRec1, exRec2].take 2)
          ([exRec1, exRec2])[1]).overallZ =
        some (([exRec1, exRec2])[1].overall.getD 0 -
          listMean (([exRec1, exRec2].take 2).filterMap fun d => d.overall))) :=
  degenerate_variance sqFake ["a", "b"] [exRec1, exRec2] 1 "a" 5 5
    (by norm_num [sqFake]) (by decide) (by decide)

/-! ## Rank lemmas -/

theorem map_enumFrom_snd_add_one (l : List (String × ℚ)) :
    ∀ n : Nat, ((l.enumFrom n).map fun p => p.1 + 1) =
      List.range' (n + 1) l.length := by
  induction l with
  | nil => intro n; simp
  | cons x rest ih =>
    intro n
    simp only [List.enumFrom_cons, List.map_cons, List.length_cons]
    rw [List.range'_succ, ih (n + 1)]

theorem map_snd_ranksOf (l : List (String × ℚ)) :
    (ranksOf l).map Prod.snd = List.range' 1 l.length := by
  rw [ranksOf, List.map_map]
  show (l.enum.map fun p => p.1 + 1) = _
  rw [show l.enum = l.enumFrom 0 from rfl, map_enumFrom_snd_add_one l 0]

theorem length_ranksOf (l : List (String × ℚ)) :
    (ranksOf l).length = l.length := by
  simp [ranksOf]

theorem get_ranksOf (l : List (String × ℚ)) (i : Nat) (h : i < l.length) :
    (ranksOf l).get ⟨i, by rw [length_ranksOf]; exact h⟩ =
      ((l.get ⟨i, h⟩).1, i + 1) := by
  simp [ranksOf, List.enum, List.get_eq_getElem, List.getElem_map,
    List.getElem_enumFrom]

theorem mem_ranksOf {l : List (String × ℚ)} {c : String} {r : Nat} :
    (c, r) ∈ ranksOf l ↔
      ∃ (i : Nat) (h : i < l.length), (l.get ⟨i, h⟩).1 = c ∧ r = i + 1 := by
  constructor
  · intro h
    obtain ⟨i, hil, heq⟩ := List.mem_iff_getElem.mp h
    rw [length_ranksOf] at hil
    have hg := get_ranksOf l i hil
    rw [List.get_eq_getElem] at hg
    rw [hg, Prod.mk.injEq] at heq
    exact ⟨i, hil, heq.1, heq.2.symm⟩
  · rintro ⟨i, hl, hc, hr⟩
    apply List.mem_iff_getElem.mpr
    refine ⟨i, by rw [length_ranksOf]; exact hl, ?_⟩
    have hg := get_ranksOf l i hl
    rw [List.get_eq_getElem] at hg
    rw [hg, hc, hr]

theorem pair_sublist_get {α : Type _} {a b : α} :
    ∀ {l : List α}, [a, b].Sublist l →
      ∃ (i j : Nat) (hi : i < l.length) (hj : j < l.length),
        i < j ∧ l.get ⟨i, hi⟩ = a ∧ l.get ⟨j, hj⟩ = b
  | [], hs => by simp at hs
  | x :: rest, hs => by
    cases hs with
    | cons _ h =>
      obtain ⟨i, j, hi, hj, hij, ha, hb⟩ := pair_sublist_get h
      refine ⟨i + 1, j + 1, by simp only [List.length_cons]; omega,
        by simp only [List.length_cons]; omega, by omega, ?_, ?_⟩
      · simp only [List.get_eq_getElem, List.getElem_cons_succ]
        rw [List.get_eq_getElem] at ha
        exact ha
      · simp only [List.get_eq_getElem, List.getElem_cons_succ]
        rw [List.get_eq_getElem] at hb
        exact hb
    | cons₂ _ h =>
      obtain ⟨j, hj, hbj⟩ := List.mem_iff_getElem.mp (List.singleton_sublist.mp h)
      refine ⟨0, j + 1, by simp, by simp only [List.length_cons]; omega,
        by omega, rfl, ?_⟩
      simp only [List.get_eq_getElem, List.getElem_cons_succ]
      exact hbj

/-- Claim C2 (rank assignment): for every date in a built cache, the
multiset of assigned ranks is exactly `{1..K}` in order (so no gaps or
repeats), where `K` is the number of categories with a defined z-score
that date (`zScores.length`); the category with rank 1 has a z-score
less than or equal to every other ranked category's z-score; and two
ranked categories with equal z-scores keep the relative order they have
in the `CategorySet` list (stable ties). -/
theorem rank_validity (sq : ℚ → ℚ) (cats : List String)
    (records : List DayRecord) (d : Int) (ce : CacheEntry)
    (cmin co c1 c2 : String) (zmin zo z1 z2 : ℚ) (r1 r2 : Nat)
    (hnd : cats.Nodup)
    (hce : (d, ce) ∈ buildPointInTimeCache sq cats records) :
    (ce.ranks.map Prod.snd = List.range' 1 ce.zScores.length)
    ∧ ((cmin, 1) ∈ ce.ranks → (cmin, zmin) ∈ ce.zScores →
        (co, zo) ∈ ce.zScores → zmin ≤ zo)
    ∧ ([c1, c2].Sublist cats → (c1, z1) ∈ ce.zScores → (c2, z2) ∈ ce.zScores →
        z1 = z2 → (c1, r1) ∈ ce.ranks → (c2, r2) ∈ ce.ranks → r1 < r2) := by
  obtain ⟨i, hi, hdd, hceq⟩ := mem_buildPointInTimeCache.mp hce
  subst hceq
  simp only [buildEntry]
  set zs := zScoresOf sq cats (records.take (i + 1)) records[i] with hzs
  set ranked := zs.insertionSort zLE with hrkd
  have hmemzs : ∀ {c : String} {z : ℚ}, (c, z) ∈ zs ↔
      c ∈ cats ∧ zScoreFn sq (records.take (i + 1)) records[i] c = some z := by
    intro c z
    rw [hzs]
    exact mem_assocOf
  refine ⟨?_, ?_, ?_⟩
  · rw [map_snd_ranksOf, hrkd, List.length_insertionSort]
  · intro hmin hzmin ho
    obtain ⟨j, hjl, hjc, hj1⟩ := mem_ranksOf.mp hmin
    have hj0 : j = 0 := by omega
    subst hj0
    have hpm : ranked.get ⟨0, hjl⟩ ∈ zs :=
      (List.mem_insertionSort zLE).mp (List.get_mem ranked 0 hjl)
    have hps : ((ranked.get ⟨0, hjl⟩).1, (ranked.get ⟨0, hjl⟩).2) ∈ zs := by
      rw [Prod.mk.eta]
      exact hpm
    rw [hjc] at hps
    obtain ⟨hcm, hfm⟩ := hmemzs.mp hps
    obtain ⟨hcm2, hfm2⟩ := hmemzs.mp hzmin
    have hval : (ranked.get ⟨0, hjl⟩).2 = zmin := by
      have := hfm.symm.trans hfm2
      exact (Option.some.injEq _ _).mp this
    have hor : (co, zo) ∈ ranked := (List.mem_insertionSort zLE).mpr ho
    obtain ⟨k, hk, hko⟩ := List.mem_iff_getElem.mp hor
    rcases Nat.eq_zero_or_pos k with hk0 | hkpos
    · subst hk0
      have : ranked.get ⟨0, hjl⟩ = (co, zo) := by
        rw [List.get_eq_getElem]
        exact hko
      rw [this] at hval
      exact le_of_eq hval.symm
    · have hsorted : ranked.Pairwise zLE := List.sorted_insertionSort zLE zs
      have hle := List.pairwise_iff_getElem.mp hsorted 0 k hjl hk hkpos
      have h0 : ranked[0] = ranked.get ⟨0, hjl⟩ := by
        rw [List.get_eq_getElem]
      rw [h0, hko] at hle
      have : zmin ≤ (co, zo).2 := by
        rw [← hval]
        exact hle
      exact this
  · intro hsub hz1 hz2 heq hr1 hr2
    obtain ⟨hc1, hf1⟩ := hmemzs.mp hz1
    obtain ⟨hc2, hf2⟩ := hmemzs.mp hz2
    have hpair : [(c1, z1), (c2, z2)].Sublist zs := by
      have h2 := hsub.filterMap fun k =>
        (zScoreFn sq (records.take (i + 1)) records[i] k).map fun z => (k, z)
      have he1 : ([c1, c2].filterMap fun k =>
          (zScoreFn sq (records.take (i + 1)) records[i] k).map fun z =>
            (k, z)) = [(c1, z1), (c2, z2)] := by
        simp [List.filterMap_cons, hf1, hf2]
      rw [he1] at h2
      rw [hzs]
      exact h2
    have hzle : zLE (c1, z1) (c2, z2) := le_of_eq heq
    have hst : [(c1, z1), (c2, z2)].Sublist ranked :=
      List.pair_sublist_insertionSort hzle hpair
    obtain ⟨u, w, hu, hw, huw, hgu, hgw⟩ := pair_sublist_get hst
    obtain ⟨u2, hu2, hcu2, hru2⟩ := mem_ranksOf.mp hr1
    obtain ⟨w2, hw2, hcw2, hrw2⟩ := mem_ranksOf.mp hr2
    have hknd : (ranked.map Prod.fst).Nodup := by
      have hkperm : (ranked.map Prod.fst).Perm (zs.map Prod.fst) :=
        (List.perm_insertionSort zLE zs).map Prod.fst
      apply hkperm.nodup_iff.mpr
      have hsubl : (zs.map Prod.fst).Sublist cats := by
        rw [hzs]
        exact map_fst_assocOf_sublist _ cats
      exact hsubl.nodup hnd
    have huu : u = u2 := by
      have hu' : u < (ranked.map Prod.fst).length := by
        rw [List.length_map]; exact hu
      have hu2' : u2 < (ranked.map Prod.fst).length := by
        rw [List.length_map]; exact hu2
      have e1 : (ranked.map Prod.fst).get ⟨u, hu'⟩ = c1 := by
        simp only [List.get_eq_getElem, List.getElem_map]
        rw [List.get_eq_getElem] at hgu
        rw [hgu]
      have e2 : (ranked.map Prod.fst).get ⟨u2, hu2'⟩ = c1 := by
        simp only [List.get_eq_getElem, List.getElem_map]
        rw [List.get_eq_getElem] at hcu2
        exact hcu2
      have hfin := hknd.get_inj_iff.mp (e1.trans e2.symm)
      exact congrArg Fin.val hfin
    have hww : w = w2 := by
      have hw' : w < (ranked.map Prod.fst).length := by
        rw [List.length_map]; exact hw
      have hw2' : w2 < (ranked.map Prod.fst).length := by
        rw [List.length_map]; exact hw2
      have e1 : (ranked.map Prod.fst).get ⟨w, hw'⟩ = c2 := by
        simp only [List.get_eq_getElem, List.getElem_map]
        rw [List.get_eq_getElem] at hgw
        rw [hgw]
      have e2 : (ranked.map Prod.fst).get ⟨w2, hw2'⟩ = c2 := by
        simp only [List.get_eq_getElem, List.getElem_map]
        rw [List.get_eq_getElem] at hcw2
        exact hcw2
      have hfin := hknd.get_inj_iff.mp (e1.trans e2.symm)
      exact congrArg Fin.val hfin
    omega

theorem rank_validity_spec :
    (exEntry2.ranks.map Prod.snd = List.range' 1 exEntry2.zScores.length)
    ∧ (("a", 1) ∈ exEntry2.ranks → ("a", (0:ℚ)) ∈ exEntry2.zScores →
        ("c", (0:ℚ)) ∈ exEntry2.zScores → (0:ℚ) ≤ 0)
    ∧ (["a", "b"].Sublist ["a", "b", "c"] →
        ("a", (0:ℚ)) ∈ exEntry2.zScores → ("b", (0:ℚ)) ∈ exEntry2.zScores →
        (0:ℚ) = 0 → ("a", 1) ∈ exEntry2.ranks → ("b", 2) ∈ exEntry2.ranks →
        1 < 2) :=
  rank_validity sqFake ["a", "b", "c"] [exRec1, exRec2] 1 exEntry2
    "a" "c" "a" "b" 0 0 0 0 1 2 (by decide)
    (mem_buildPointInTimeCache.mpr ⟨1, by decide, rfl, rfl⟩)

theorem rawAvgOf_singleton (o : Option ℚ) : rawAvgOf [o] = o := by
  cases o with
  | none => rfl
  | some x => simp [rawAvgOf, List.filterMap_cons]

theorem indexZOf_singleton (sq : ℚ → ℚ) (a : String) (history : List DayRecord)
    (entry : DayRecord) :
    indexZOf sq [a] history entry = zScoreFn sq history entry a := by
  have hmap : ∀ d : DayRecord, rawAvgOf ([a].map fun c => d.values c) =
      d.values a := by
    intro d
    simpa using rawAvgOf_singleton (d.values a)
  have hhist : (history.filterMap fun d =>
      rawAvgOf ([a].map fun c => d.values c)) = catValues history a := by
    unfold catValues
    congr 1
    funext d
    exact hmap d
  unfold indexZOf
  rw [hmap entry]
  cases hv : entry.values a with
  | none =>
    unfold zScoreFn
    rw [hv]
  | some v =>
    rw [hhist]
    unfold zScoreFn
    rw [hv]
    by_cases hlen : (catValues history a).length < 2
    · rw [statsFor_eq_none sq _ _ hlen]
      exact if_neg (by omega)
    · rw [statsFor_eq_stats sq _ _ hlen]
      exact if_pos (by omega)

/-- Claim C8 (single-category index identity): over a `CategorySet` with
exactly one category, on every date where both `indexZ` and that
category's z-score are defined, they are equal — the raw average of one
category is that category's value, so both are standardized against the
same historical series. -/
theorem single_category_index (sq : ℚ → ℚ) (a : String)
    (records : List DayRecord) (d : Int) (ce : CacheEntry) (z1 z2 : ℚ)
    (hce : (d, ce) ∈ buildPointInTimeCache sq [a] records)
    (h1 : ce.indexZ = some z1) (h2 : ce.zScores.lookup a = some z2) :
    z1 = z2 := by
  obtain ⟨i, hi, hdd, hceq⟩ := mem_buildPointInTimeCache.mp hce
  subst hceq
  have hidx : (buildEntry sq [a] (records.take (i + 1)) records[i]).indexZ =
      zScoreFn sq (records.take (i + 1)) records[i] a := by
    show indexZOf sq [a] (records.take (i + 1)) records[i] = _
    exact indexZOf_singleton sq a _ _
  have hz : (buildEntry sq [a] (records.take (i + 1)) records[i]).zScores.lookup a =
      zScoreFn sq (records.take (i + 1)) records[i] a := by
    show (zScoresOf sq [a] (records.take (i + 1)) records[i]).lookup a = _
    rw [zScoresOf, lookup_assocOf _ _ _ (by simp)]
  rw [hidx] at h1
  rw [hz, h1, Option.some.injEq] at h2
  exact h2

theorem zScoreFn_ex :
    zScoreFn sqFake ([exRec1, exRec2].take 2) (([exRec1, exRec2])[1]) "a" =
      some 0 := by
  have hval : catValues ([exRec1, exRec2].take 2) "a" = [(5:ℚ), 5] := rfl
  have hv1 : ([exRec1, exRec2])[1].values "a" = some (5:ℚ) := rfl
  unfold zScoreFn
  rw [hv1, statsFor_eq_stats sqFake _ _ (by rw [hval]; norm_num), hval]
  norm_num [listMean, listVariance, stdOrOne, sqFake]

theorem single_category_index_spec : (0:ℚ) = 0 :=
  single_category_index sqFake "a" [exRec1, exRec2] 1
    (buildEntry sqFake ["a"] ([exRec1, exRec2].take 2) (([exRec1, exRec2])[1]))
    0 0
    (mem_buildPointInTimeCache.mpr ⟨1, by decide, rfl, rfl⟩)
    (by show indexZOf sqFake ["a"] ([exRec1, exRec2].take 2)
          (([exRec1, exRec2])[1]) = some 0
        rw [indexZOf_singleton, zScoreFn_ex])
    (by show (zScoresOf sqFake ["a"] ([exRec1, exRec2].take 2)
          (([exRec1, exRec2])[1])).lookup "a" = some 0
        rw [zScoresOf, lookup_assocOf _ _ _ (by simp), zScoreFn_ex])

/-- Claim C10 (implicit guard on the day's own average): for a date
whose record has no present category value, the built entry's `rawAvg`
is `null` and `indexZ` is `null`, regardless of how many historical
daily averages exist. -/
theorem missing_day_average (sq : ℚ → ℚ) (cats : List String)
    (records : List DayRecord) (i : Nat) (hi : i < records.length)
    (hnone : ∀ ct ∈ cats, records[i].values ct = none) :
    ((buildPointInTimeCache sq cats records)[i]? =
      some (records[i].date,
        buildEntry sq cats (records.take (i + 1)) records[i]))
    ∧ (buildEntry sq cats (records.take (i + 1)) records[i]).rawAvg = none
    ∧ (buildEntry sq cats (records.take (i + 1)) records[i]).indexZ = none := by
  have hraw : rawAvgOf (cats.map fun ct => records[i].values ct) = none := by
    unfold rawAvgOf
    have hnil : (cats.map fun ct => records[i].values ct).filterMap id = [] := by
      rw [List.filterMap_eq_nil_iff]
      intro o ho
      obtain ⟨ct, hct, rfl⟩ := List.mem_map.mp ho
      exact hnone ct hct
    simp [hnil]
  refine ⟨getElem?_buildPointInTimeCache sq cats records i hi, ?_, ?_⟩
  · show rawAvgOf (cats.map fun ct => records[i].values ct) = none
    exact hraw
  · show indexZOf sq cats (records.take (i + 1)) records[i] = none
    unfold indexZOf
    rw [hraw]

theorem missing_day_average_spec :
    ((buildPointInTimeCache sqFake ["a", "b"] [exRec1, exRec2, exRec3])[2]? =
      some (([exRec1, exRec2, exRec3])[2].date,
        buildEntry sqFake ["a", "b"] ([exRec1, exRec2, exRec3].take 3)
          ([exRec1, exRec2, exRec3])[2]))
    ∧ (buildEntry sqFake ["a", "b"] ([exRec1, exRec2, exRec3].take 3)
        ([exRec1, exRec2, exRec3])[2]).rawAvg = none
    ∧ (buildEntry sqFake ["a", "b"] ([exRec1, exRec2, exRec3].take 3)
        ([exRec1, exRec2, exRec3])[2]).indexZ = none :=
  missing_day_average sqFake ["a", "b"] [exRec1, exRec2, exRec3] 2 (by decide)
    (by decide)

end Imladris
